import Mathlib

/-!
Shallow embedding of the PlanningClub peer-mesh synchronization engine
(`src/game-manager.js`, `src/peer-manager.js`).

Conventions of the embedding:
* JavaScript `Map` objects are modelled as insertion-ordered association
  lists (`List (String × _)`); `Map.set` replaces the value in place when
  the key is present and appends otherwise, `Map.delete` removes the pair,
  `Map.get` returns an `Option`.
* Vote values are the fixed card set of `GameManager.voteCards`; the
  JavaScript `parseFloat(v.replace(half, .5))` parse of a card label is
  modelled exactly by `Card.parseNum` (`?` is `NaN`, i.e. `none`).
* JavaScript number arithmetic is modelled over `ℚ`/`ℤ`.  Card values,
  their sums, the 80%/60% threshold comparisons and the timer arithmetic
  are exact in binary64 at every reachable magnitude, so `ℚ` models them
  faithfully; the one inexact operation, the average's division, is
  modelled as the correctly rounded binary64 quotient (`floatDiv`).
* Side effects (broadcasts, targeted sends, `setTimeout` timers) are
  returned as an explicit effect list; UI-facing event-emitter calls
  (`playersUpdated`, `votingComplete`, ...) carry no synchronization
  state and are elided.
-/

namespace PlanningClub

/-- The fixed vote-card set `['0','½','1','2','3','5','8','13','20','40','100','?']`
from `GameManager.voteCards` (game-manager.js line 14). -/
inductive Card where
  | c0 | chalf | c1 | c2 | c3 | c5 | c8 | c13 | c20 | c40 | c100 | cq
deriving DecidableEq, Repr

/-- The display label of a card (the string stored as a vote in the source). -/
def Card.label : Card → String
  | .c0 => "0" | .chalf => "½" | .c1 => "1" | .c2 => "2" | .c3 => "3"
  | .c5 => "5" | .c8 => "8" | .c13 => "13" | .c20 => "20" | .c40 => "40"
  | .c100 => "100" | .cq => "?"

/-- `parseFloat(v.replace('½', '.5'))` on a card label:
numeric labels parse to their value, `½` to `0.5`, `?` to `NaN` (`none`).
(game-manager.js lines 428-429, 483, 487). -/
def Card.parseNum : Card → Option ℚ
  | .c0 => some 0 | .chalf => some (1/2) | .c1 => some 1 | .c2 => some 2
  | .c3 => some 3 | .c5 => some 5 | .c8 => some 8 | .c13 => some 13
  | .c20 => some 20 | .c40 => some 40 | .c100 => some 100 | .cq => none

/-- The numerically parseable subset of a vote list, in order
(`votes.filter(v => !isNaN(parseFloat(...))).map(parseFloat...)`,
game-manager.js lines 427-430).  The source sorts this list only to read
its first and last element; we read the minimum and maximum directly
(`listMin`/`listMax` below). -/
def numericVotes (votes : List Card) : List ℚ :=
  votes.filterMap Card.parseNum

/-- First element of the ascending sort of `l` (i.e. its minimum);
`none` on the empty list. -/
def listMin : List ℚ → Option ℚ
  | [] => none
  | x :: xs => some (xs.foldl min x)

/-- Last element of the ascending sort of `l` (i.e. its maximum);
`none` on the empty list. -/
def listMax : List ℚ → Option ℚ
  | [] => none
  | x :: xs => some (xs.foldl max x)

/-- Result of `GameManager.detectConsensus`.  The source returns
`{type, message, highlight}`; the constructors carry the data from which
each message string is formatted, and `Consensus.ctype` is the `type`
field.  `perfectCard` is the string-identity return site (lines 418-424),
`perfectNum` the numeric range-0 return site (lines 437-442). -/
inductive Consensus where
  | insufficient
  | perfectCard (c : Card)
  | perfectNum (v : ℚ)
  | close (range : ℚ)
  | divergent (lo hi : ℚ)
  | majority (c : Card) (count total : ℕ)
  | noConsensus
deriving DecidableEq, Repr

/-- The `type` string of a consensus result. -/
def Consensus.ctype : Consensus → String
  | .insufficient => "insufficient"
  | .perfectCard _ => "perfect"
  | .perfectNum _ => "perfect"
  | .close _ => "close"
  | .divergent _ _ => "divergent"
  | .majority _ _ _ => "majority"
  | .noConsensus => "none"

/-- The numeric-label cards, ascending.  JavaScript object keys that are
canonical array indices ("0","1",...,"100") are enumerated in ascending
numeric order before the remaining string keys ("½", "?"), which keep
insertion order; `jsKeys` below reproduces `Object.keys(voteCount)`. -/
def numericKeyCards : List Card :=
  [.c0, .c1, .c2, .c3, .c5, .c8, .c13, .c20, .c40, .c100]

/-- Keep the first occurrence of each element, dropping later duplicates. -/
def dedupFirst (l : List Card) : List Card :=
  l.foldl (fun acc c => if acc.contains c then acc else acc ++ [c]) []

/-- `Object.keys(voteCount)` for the tally object built in
`detectConsensus` (game-manager.js lines 459-463): integer-like keys
ascending, then `½`/`?` in first-insertion order. -/
def jsKeys (votes : List Card) : List Card :=
  numericKeyCards.filter (fun c => votes.contains c) ++
    dedupFirst (votes.filter (fun c => c == Card.chalf || c == Card.cq))

/-- `Math.max(...Object.values(voteCount))` (game-manager.js line 464). -/
def jsMaxCount (votes : List Card) : ℕ :=
  (jsKeys votes).foldl (fun m k => max m (votes.count k)) 0

/-- The majority/none tail of `detectConsensus` (game-manager.js lines
458-479): tally the votes, find the first key attaining the maximal
count, and report a majority when that count exceeds 60% of the total. -/
def majorityOrNone (votes : List Card) : Consensus :=
  match (jsKeys votes).find? (fun k => votes.count k == jsMaxCount votes) with
  | some mv =>
      if ((jsMaxCount votes : ℚ) > (votes.length : ℚ) * (3/5)) then
        .majority mv (jsMaxCount votes) votes.length
      else .noConsensus
  | none => .noConsensus

/-- `GameManager.detectConsensus` (game-manager.js lines 411-480).
Branch order as in the source: fewer than 2 votes, all votes identical
(string equality), the ≥80%-numeric range analysis, then the
majority/none tail.  The `0.8` literal is modelled as the rational
`4/5`. -/
def detectConsensus (votes : List Card) : Consensus :=
  if votes.length < 2 then .insufficient
  else
    match votes with
    | [] => .insufficient
    | v :: rest =>
      if rest.all (· == v) then .perfectCard v
      else
        let nums := numericVotes votes
        if ((nums.length : ℚ) ≥ (votes.length : ℚ) * (4/5)) then
          match listMin nums, listMax nums with
          | some mn, some mx =>
            let range := mx - mn
            if range = 0 then .perfectNum mn
            else if range ≤ 2 then .close range
            else if range ≥ 10 then .divergent mn mx
            else majorityOrNone votes
          | _, _ => majorityOrNone votes
        else majorityOrNone votes

/-- `(x).toFixed(1)` on a nonnegative number `x`: round to one decimal
place, picking the larger candidate at a tie (ECMA `toFixed`).  In
`calculateAverage` this is applied to a binary64 value; a tie would
require that value to be an odd multiple of 1/20, which is never dyadic,
so the tie direction is unexercised there and half-up agrees with
`toFixed` exactly. -/
def roundTo1 (q : ℚ) : ℚ := (round (q * 10) : ℤ) / 10

/-- Round to the nearest integer, ties to even — the IEEE-754
round-to-nearest used for inexact results. -/
def roundHalfEven (q : ℚ) : ℤ :=
  if q - ⌊q⌋ < 1/2 then ⌊q⌋
  else if 1/2 < q - ⌊q⌋ then ⌊q⌋ + 1
  else if ⌊q⌋ % 2 = 0 then ⌊q⌋ else ⌊q⌋ + 1

/-- `⌊log₂ q⌋` of a positive rational: with `2^a ≤ num < 2^(a+1)` and
`2^b ≤ den < 2^(b+1)`, the quotient lies in `(2^(a-b-1), 2^(a-b+1))`. -/
def ratLog2 (q : ℚ) : ℤ :=
  let a : ℤ := Nat.log2 q.num.toNat
  let b : ℤ := Nat.log2 q.den
  if q < (2 : ℚ) ^ (a - b) then a - b - 1 else a - b

/-- The IEEE-754 binary64 double nearest to a nonnegative rational: round
the 53-bit significand to nearest, ties to even.  (Normal range assumed —
every quantity `calculateAverage` divides is far from overflow and
underflow.) -/
def toDouble (q : ℚ) : ℚ :=
  if q ≤ 0 then 0
  else
    let ulp : ℚ := 2 ^ (ratLog2 q - 52)
    (roundHalfEven (q / ulp) : ℚ) * ulp

/-- JavaScript `a / b` on exactly representable operands: the correctly
rounded binary64 quotient. -/
def floatDiv (a b : ℚ) : ℚ := toDouble (a / b)

/-- `GameManager.calculateAverage` (game-manager.js lines 482-491):
`null` when no vote parses numerically, otherwise `toFixed(1)` of the
JavaScript mean `sum / count`.  Card values are halves and JavaScript
sums of halves stay exact in binary64 (every partial sum is a multiple
of ½ far below 2⁵² for any array length), so the only rounded operation
is the final division, modelled by `floatDiv`; `roundTo1` is the
`toFixed(1)` display rounding of the resulting double. -/
def calculateAverage (votes : List Card) : Option ℚ :=
  let nums := numericVotes votes
  if nums.length = 0 then none
  else some (roundTo1 (floatDiv nums.sum (nums.length : ℚ)))

/-- Modelled from the spec (the reading of claim C9): "the mean of the
numeric-parseable subset rounded to one decimal" taken over exact
rationals — the idealization that ignores the binary64 quotient.  Kept
only for comparison with `calculateAverage`. -/
def specAverage (votes : List Card) : Option ℚ :=
  let nums := numericVotes votes
  if nums.length = 0 then none
  else some (roundTo1 (nums.sum / (nums.length : ℚ)))

/-! ## JavaScript `Map` model -/

/-- `Map.prototype.get`: the value of the first (unique) pair with the key. -/
def mapGet {α : Type} (m : List (String × α)) (k : String) : Option α :=
  (m.find? (fun kp => kp.1 == k)).map Prod.snd

/-- `Map.prototype.has`. -/
def mapHas {α : Type} (m : List (String × α)) (k : String) : Bool :=
  m.any (fun kp => kp.1 == k)

/-- `Map.prototype.set`: replace in place when the key is present
(a JavaScript `Map` holds at most one entry per key, so with duplicate-free
keys this touches exactly one pair), append otherwise. -/
def mapSet {α : Type} (m : List (String × α)) (k : String) (v : α) : List (String × α) :=
  if mapHas m k then m.map (fun kp => if kp.1 == k then (k, v) else kp)
  else m ++ [(k, v)]

/-- `Map.prototype.delete`. -/
def mapDelete {α : Type} (m : List (String × α)) (k : String) : List (String × α) :=
  m.filter (fun kp => kp.1 != k)

/-! ## Replicated game state (`GameManager`) -/

/-- The local profile (`this.playerData`). -/
structure PlayerData where
  name : String
  email : Option String := none
  avatar : Option String := none
deriving DecidableEq, Repr

/-- A roster entry (`this.players` values).  Fields a creation site leaves
out of the object literal (`undefined` in JavaScript) are `none`/`false`. -/
structure Player where
  id : String
  name : String
  email : Option String := none
  avatar : Option String := none
  vote : Option Card := none
  reaction : Option String := none
  isLocal : Bool := false
deriving DecidableEq, Repr

/-- The peer-to-peer message catalog (`{type, ...payload}` envelopes).
`connection_update` is emitted by `broadcastConnectionList` but has no
handler; `peer_list` is consumed inside `PeerManager.handlePeerData`.
Reaction timestamps are `Date.now()` values, modelled as `ℤ`. -/
inductive Msg where
  | player_data (p : Player)
  | request_player_data
  | vote (v : Option Card)
  | clear_votes
  | show_votes (allVotes : List (String × String × Option Card))
  | reaction (r : Option String) (timestamp : ℤ)
  | player_disconnected (peerId : String)
  | peer_list (peers : List String)
  | connection_update (peers : List String)
deriving DecidableEq, Repr

/-- Externally visible side effects: outgoing messages and `setTimeout` /
`clearTimeout` bookkeeping.  `scheduleReveal d` is the
`setTimeout(() => showVotes(), d)` of `checkVotingComplete`;
`setReactionTimer pid r d` is a `setTimeout(() => expireReaction(pid, r), d)`.
UI event-emitter calls are elided. -/
inductive Effect where
  | broadcast (m : Msg)
  | sendTo (peerId : String) (m : Msg)
  | scheduleReveal (delayMs : ℕ)
  | setReactionTimer (peerId : String) (expected : String) (delayMs : ℤ)
  | clearTimer (peerId : String)
deriving DecidableEq, Repr

/-- The mutable fields of `GameManager` that carry synchronization state
(the reaction-timer handles live in the effect stream). -/
structure GMState where
  localPeerId : Option String := none
  playerData : Option PlayerData := none
  players : List (String × Player) := []
  votesRevealed : Bool := false
deriving DecidableEq, Repr

/-- `GameManager.checkVotingComplete` (game-manager.js lines 348-360):
when votes are not revealed, the roster is nonempty and every player has
a non-null vote, schedule `showVotes()` after a 500ms delay. -/
def checkVotingComplete (s : GMState) : List Effect :=
  if s.votesRevealed then []
  else
    let withVotes := (s.players.filter (fun kp => kp.2.vote != none)).length
    if 0 < s.players.length ∧ withVotes = s.players.length then
      [.scheduleReveal 500]
    else []

/-- `GameManager.broadcastPlayerUpdate` (game-manager.js lines 362-370). -/
def broadcastPlayerUpdate (s : GMState) : List Effect :=
  match s.localPeerId with
  | some pid =>
    match mapGet s.players pid with
    | some p => [.broadcast (.player_data p)]
    | none => []
  | none => []

/-- `GameManager.addLocalPlayer` (game-manager.js lines 51-80): no-op
without both a local peer id and profile data; otherwise update the
existing local entry in place, or append a fresh one, then broadcast
`player_data`. -/
def addLocalPlayer (s : GMState) : GMState × List Effect :=
  match s.localPeerId, s.playerData with
  | some pid, some pd =>
    let players' :=
      match mapGet s.players pid with
      | some existing =>
        mapSet s.players pid
          { existing with name := pd.name, email := pd.email,
                          avatar := pd.avatar, isLocal := true }
      | none =>
        mapSet s.players pid
          { id := pid, name := pd.name, email := pd.email, avatar := pd.avatar,
            vote := none, reaction := none, isLocal := true }
    let s' := { s with players := players' }
    (s', broadcastPlayerUpdate s')
  | _, _ => (s, [])

/-- `GameManager.addPeer` (game-manager.js lines 82-99). -/
def addPeer (s : GMState) (peerId : String) : GMState × List Effect :=
  if s.localPeerId = some peerId then (s, [])
  else
    let pdEff :=
      match s.localPeerId with
      | some pid =>
        match mapGet s.players pid with
        | some p => [Effect.sendTo peerId (.player_data p)]
        | none => []
      | none => []
    (s, pdEff ++ [.sendTo peerId .request_player_data])

/-- `GameManager.removePeer` (game-manager.js lines 101-119). -/
def removePeer (s : GMState) (peerId : String) : GMState × List Effect :=
  if mapHas s.players peerId then
    let s' := { s with players := mapDelete s.players peerId }
    (s', [Effect.clearTimer peerId] ++ checkVotingComplete s' ++
      (match s.localPeerId with
       | some _ => [.broadcast (.player_disconnected peerId)]
       | none => []))
  else (s, [Effect.clearTimer peerId])

/-- `GameManager.castVote` (game-manager.js lines 220-235). -/
def castVote (s : GMState) (v : Card) : GMState × List Effect :=
  match s.localPeerId with
  | none => (s, [])
  | some pid =>
    match mapGet s.players pid with
    | none => (s, [])
    | some p =>
      let s' := { s with players := mapSet s.players pid { p with vote := some v } }
      (s', [.broadcast (.vote (some v))] ++ checkVotingComplete s')

/-- `GameManager.clearVotes` (game-manager.js lines 237-252): reset the
reveal flag, null every player's vote, broadcast `clear_votes` when asked. -/
def clearVotes (s : GMState) (shouldBroadcast : Bool) : GMState × List Effect :=
  let s' := { s with votesRevealed := false,
                     players := s.players.map (fun kp => (kp.1, { kp.2 with vote := none })) }
  (s', if shouldBroadcast then [.broadcast .clear_votes] else [])

/-- `GameManager.showVotes` (game-manager.js lines 254-278): set the
reveal flag and, when asked, broadcast a name+vote snapshot of every
player holding a (truthy, i.e. non-null) vote. -/
def showVotes (s : GMState) (shouldBroadcast : Bool) : GMState × List Effect :=
  let s' := { s with votesRevealed := true }
  (s',
    if shouldBroadcast then
      [.broadcast (.show_votes (s.players.filterMap (fun kp =>
        match kp.2.vote with
        | some v => some (kp.1, kp.2.name, some v)
        | none => none)))]
    else [])

/-- `GameManager.setReaction` (game-manager.js lines 280-305). -/
def setReaction (now : ℤ) (s : GMState) (reaction : String) : GMState × List Effect :=
  match s.localPeerId with
  | none => (s, [])
  | some pid =>
    match mapGet s.players pid with
    | none => (s, [])
    | some p =>
      let newReaction : Option String :=
        if p.reaction = some reaction then none else some reaction
      let s' := { s with players := mapSet s.players pid { p with reaction := newReaction } }
      (s', [.clearTimer pid] ++
        (match newReaction with
         | some r => [.setReactionTimer pid r 5000]
         | none => []) ++
        [.broadcast (.reaction newReaction now)])

/-- `GameManager.expireReaction` (game-manager.js lines 323-346): clear
the reaction only when the player exists and still holds exactly the
reaction the timer was armed with; broadcast the clearing only for the
local player. -/
def expireReaction (now : ℤ) (s : GMState) (peerId : String) (expected : String) :
    GMState × List Effect :=
  match mapGet s.players peerId with
  | none => (s, [])
  | some p =>
    if p.reaction = some expected then
      let s' := { s with players := mapSet s.players peerId { p with reaction := none } }
      (s', if s.localPeerId = some peerId then [.broadcast (.reaction none now)] else [])
    else (s, [])

/-- `GameManager.handlePeerMessage` (game-manager.js lines 121-218).
`now` is `Date.now()` at handling time (used by the `reaction` case).
Message types without a `switch` case (`peer_list`, `connection_update`)
fall through unchanged. -/
def handlePeerMessage (now : ℤ) (s : GMState) (peerId : String) (m : Msg) :
    GMState × List Effect :=
  match m with
  | .player_data p =>
    if s.localPeerId = some peerId then (s, [])
    else ({ s with players := mapSet s.players peerId { p with id := peerId, isLocal := false } }, [])
  | .request_player_data =>
    match s.localPeerId with
    | some pid =>
      match mapGet s.players pid with
      | some p => (s, [.sendTo peerId (.player_data p)])
      | none => (s, [])
    | none => (s, [])
  | .player_disconnected dpid =>
    if mapHas s.players dpid then
      let s' := { s with players := mapDelete s.players dpid }
      (s', checkVotingComplete s')
    else (s, [])
  | .vote v =>
    match mapGet s.players peerId with
    | some p =>
      let s' := { s with players := mapSet s.players peerId { p with vote := v } }
      (s', checkVotingComplete s')
    | none => (s, [])
  | .clear_votes => clearVotes s false
  | .show_votes allVotes =>
    let players' := allVotes.foldl (fun ps entry =>
      match mapGet ps entry.1 with
      | some p => mapSet ps entry.1 { p with vote := entry.2.2 }
      | none => mapSet ps entry.1
          { id := entry.1, name := entry.2.1, email := none, avatar := none,
            vote := entry.2.2, reaction := none, isLocal := false }) s.players
    showVotes { s with players := players' } false
  | .reaction r ts =>
    match mapGet s.players peerId with
    | some p =>
      let s' := { s with players := mapSet s.players peerId { p with reaction := r } }
      let timerEffs :=
        match r with
        | some rv =>
          if ts ≠ 0 then [Effect.setReactionTimer peerId rv (max (5000 - (now - ts)) 100)]
          else []
        | none => []
      (s', [Effect.clearTimer peerId] ++ timerEffs)
    | none => (s, [])
  | .peer_list _ => (s, [])
  | .connection_update _ => (s, [])

/-! ## Transport / mesh bookkeeping (`PeerManager`) -/

/-- The `PeerManager` fields the claims are about: the local endpoint id
(`this.peer.id` once open), the insertion-ordered key set of
`this.connections`, and the host flag. -/
structure PMState where
  peerId : Option String := none
  connections : List String := []
  isHost : Bool := false
deriving DecidableEq, Repr

/-- `this.connections.set(conn.peer, conn)` on the key set. -/
def insertKey (l : List String) (k : String) : List String :=
  if l.contains k then l else l ++ [k]

/-- `PeerManager.handleIncomingConnection` (peer-manager.js lines
174-195): record the connection; additionally, only when this peer is
the host, broadcast a `connection_update` and send the new peer a
`peer_list` of every other recorded connection.  (The source sends the
`peer_list` from a 100ms `setTimeout`; no other connection event
intervenes in the sequential model, so it is emitted in place.) -/
def handleIncomingConnection (pm : PMState) (remote : String) : PMState × List Effect :=
  let conns' := insertKey pm.connections remote
  let pm' := { pm with connections := conns' }
  if pm.isHost then
    (pm', [.broadcast (.connection_update conns'),
           .sendTo remote (.peer_list (conns'.filter (fun id => id != remote)))])
  else (pm', [])

/-- `PeerManager.handleOutgoingConnection` (peer-manager.js lines 197-206). -/
def handleOutgoingConnection (pm : PMState) (remote : String) : PMState × List Effect :=
  ({ pm with connections := insertKey pm.connections remote }, [])

/-- The `peer_list` consumption inside `PeerManager.handlePeerData`
(peer-manager.js lines 217-226): connect outbound to every listed peer
not already recorded and different from the local id (each such
connection is recorded by `handleOutgoingConnection` when it opens). -/
def meshJoin (pm : PMState) (peers : List String) : PMState :=
  let step := fun (conns : List String) (p : String) =>
    if conns.contains p ∨ pm.peerId = some p then conns else insertKey conns p
  { pm with connections := peers.foldl step pm.connections }

/-- `PeerManager.handlePeerData` (peer-manager.js lines 208-230) composed
with the app wiring `dataReceived → GameManager.handlePeerMessage`
(app.js lines 85-86): drop data whose sender id equals the local peer id,
consume `peer_list` on non-hosts, and dispatch everything else to the
game manager. -/
def handlePeerData (now : ℤ) (pm : PMState) (gm : GMState) (sender : String) (m : Msg) :
    PMState × GMState × List Effect :=
  if pm.peerId = some sender then (pm, gm, [])
  else
    match m with
    | .peer_list peers =>
      if pm.isHost = false then (meshJoin pm peers, gm, [])
      else
        let r := handlePeerMessage now gm sender m
        (pm, r.1, r.2)
    | _ =>
      let r := handlePeerMessage now gm sender m
      (pm, r.1, r.2)

/-! ## Mesh formation across peers (claim C1)

A global view of the bootstrap protocol of section 4.2: the state maps
every peer id to the key set of its recorded connections (the
`this.connections` map of that peer's `PeerManager`, abstracted to the
set of remote ids — the claim is about which remote ids are recorded,
one entry each).  `record` is one `connections.set(conn.peer, conn)`;
`meshConnect` is one guarded outbound attempt from the `peer_list`
handler (peer-manager.js lines 219-226) together with the accepting
side's `handleIncomingConnection` (line 178); `joinStep` is one joiner's
bootstrap: connect to the host (lines 101-114 joiner side, line 178 host
side), receive the host's `peer_list` (lines 186-193, all current
connections except the new peer), and connect to every listed id.  All
outbound attempts succeed, as the claim assumes. -/

/-- Record remote id `b` in peer `a`'s connection map. -/
def record (conns : String → Finset String) (a b : String) : String → Finset String :=
  fun q => if q = a then insert b (conns a) else conns q

/-- Peer `self` processes one entry `p` of a received `peer_list`:
skip ids already recorded and its own id
(`!this.connections.has(peer) && peer !== this.peer.id`), otherwise
connect — both endpoints record the new connection. -/
def meshConnect (conns : String → Finset String) (self p : String) :
    String → Finset String :=
  if p ∈ conns self ∨ p = self then conns
  else record (record conns self p) p self

/-- Fold a received `peer_list` through `meshConnect`. -/
def meshFold (self : String) (l : List String) (c : String → Finset String) :
    String → Finset String :=
  l.foldl (fun conns p => meshConnect conns self p) c

/-- One joiner `j` joins: it connects to the host (both sides record),
the host answers with its recorded connections other than `j`, and `j`
connects to each of them. -/
def joinStep (host : String) (conns : String → Finset String) (j : String) :
    String → Finset String :=
  let c1 := record (record conns j host) host j
  meshFold j (((c1 host).erase j).sort (· ≤ ·)) c1

/-- Run a whole session: starting from no connections, the joiners
bootstrap one after another in the given order. -/
def simulate (host : String) (joiners : List String) : String → Finset String :=
  joiners.foldl (joinStep host) (fun _ => (∅ : Finset String))

/-! ## Concrete fixtures used by witnesses and counterexamples -/

/-- The local player of the fixture states. -/
def pMe : Player := { id := "me", name := "Me", isLocal := true }

/-- A remote player who has voted. -/
def pYou : Player := { id := "you", name := "You", vote := some Card.c8 }

/-- A remote player holding an active reaction. -/
def pReact : Player := { id := "you", name := "You", reaction := some "clap" }

/-- Two-player state: local player has not voted, remote player has. -/
def gmTwo : GMState :=
  { localPeerId := some "me", playerData := some { name := "Me" },
    players := [("me", pMe), ("you", pYou)] }

/-- Two-player state with an active remote reaction. -/
def gmReact : GMState :=
  { localPeerId := some "me", players := [("me", pMe), ("you", pReact)] }

/-- A non-host peer already connected to the bootstrap peer. -/
def pmJoiner : PMState :=
  { peerId := some "p1", connections := ["host-123456789"], isHost := false }

/-- The bootstrap peer with one recorded connection. -/
def pmHost : PMState :=
  { peerId := some "host-123456789", connections := ["p1"], isHost := true }

/-- Ten votes whose exact mean is 0.15, an exact decimal-rounding tie:
three ½-votes and seven 0-votes. -/
def tieVotes : List Card :=
  [Card.chalf, Card.chalf, Card.chalf, Card.c0, Card.c0, Card.c0, Card.c0,
   Card.c0, Card.c0, Card.c0]

/-! ## Lemmas and claim theorems -/

lemma record_self (c : String → Finset String) (a b : String) :
    record c a b a = insert b (c a) := by
  simp [record]

lemma record_other (c : String → Finset String) (a b q : String) (h : q ≠ a) :
    record c a b q = c q := by
  simp [record, h]

lemma meshFold_inv (host j : String) (S : Finset String)
    (hhS : host ∉ S) (hjS : j ∉ S) (hjh : j ≠ host) :
    ∀ (l : List String) (D : Finset String) (c : String → Finset String),
      l.Nodup → (∀ x ∈ l, x ∈ S) → (∀ x ∈ l, x ∉ D) →
      host ∉ D → j ∉ D → D ⊆ S →
      c host = insert j S →
      c j = insert host D →
      (∀ p ∈ S, p ∉ D → c p = (insert host S).erase p) →
      (∀ p ∈ D, c p = insert j ((insert host S).erase p)) →
      (∀ q, q ≠ host → q ≠ j → q ∉ S → c q = ∅) →
      meshFold j l c host = insert j S ∧
      meshFold j l c j = insert host (D ∪ l.toFinset) ∧
      (∀ p ∈ S, p ∉ D → p ∉ l → meshFold j l c p = (insert host S).erase p) ∧
      (∀ p ∈ D ∪ l.toFinset, meshFold j l c p = insert j ((insert host S).erase p)) ∧
      (∀ q, q ≠ host → q ≠ j → q ∉ S → meshFold j l c q = ∅) := by
  intro l
  induction l with
  | nil =>
    intro D c _ _ _ hhD hjD hDS hch hcj hS hD hout
    refine ⟨hch, by simpa using hcj, fun p hp hpD _ => hS p hp hpD, ?_, hout⟩
    intro p hp
    simp only [List.toFinset_nil, Finset.union_empty] at hp
    exact hD p hp
  | cons p l' ih =>
    intro D c hnd hsub hD hhD hjD hDS hch hcj hS hDold hout
    have hpS : p ∈ S := hsub p (by simp)
    have hpD : p ∉ D := hD p (by simp)
    have hpj : p ≠ j := fun h => hjS (h ▸ hpS)
    have hph : p ≠ host := fun h => hhS (h ▸ hpS)
    -- the guard of `meshConnect` is false: p is fresh for j
    have hpcj : p ∉ c j := by
      rw [hcj]
      simp only [Finset.mem_insert, not_or]
      exact ⟨hph, hpD⟩
    have hguard : ¬(p ∈ c j ∨ p = j) := by
      rintro (h | h)
      · exact hpcj h
      · exact hpj h
    have hstep : meshConnect c j p = record (record c j p) p j := by
      simp only [meshConnect, if_neg hguard]
    have hfold : meshFold j (p :: l') c = meshFold j l' (record (record c j p) p j) := by
      simp only [meshFold, List.foldl_cons, hstep]
    set c2 := record (record c j p) p j with hc2
    have hc2h : c2 host = insert j S := by
      rw [hc2, record_other (record c j p) p j host (Ne.symm hph),
        record_other c j p host (Ne.symm hjh), hch]
    have hc2j : c2 j = insert host (insert p D) := by
      rw [hc2, record_other (record c j p) p j j (Ne.symm hpj), record_self, hcj,
        Finset.Insert.comm]
    have hc2p : c2 p = insert j ((insert host S).erase p) := by
      rw [hc2, record_self, record_other c j p p hpj, hS p hpS hpD]
    have hc2other : ∀ q, q ≠ p → q ≠ j → c2 q = c q := by
      intro q hqp hqj
      rw [hc2, record_other (record c j p) p j q hqp, record_other c j p q hqj]
    obtain ⟨ha, hb, hc', hd, he⟩ :=
      ih (insert p D) c2 hnd.of_cons
        (fun x hx => hsub x (by simp [hx]))
        (fun x hx => by
          simp only [Finset.mem_insert, not_or]
          exact ⟨fun h => (List.nodup_cons.mp hnd).1 (h ▸ hx), hD x (by simp [hx])⟩)
        (by simp only [Finset.mem_insert, not_or]; exact ⟨Ne.symm hph, hhD⟩)
        (by simp only [Finset.mem_insert, not_or]; exact ⟨Ne.symm hpj, hjD⟩)
        (Finset.insert_subset hpS hDS)
        hc2h hc2j
        (fun q hq hqD => by
          have hqp : q ≠ p := fun h => hqD (by simp [h])
          have hqD' : q ∉ D := fun h => hqD (by simp [h])
          have hqj : q ≠ j := fun h => hjS (h ▸ hq)
          rw [hc2other q hqp hqj]
          exact hS q hq hqD')
        (fun q hq => by
          rcases Finset.mem_insert.mp hq with h | h
          · exact h ▸ hc2p
          · have hqp : q ≠ p := fun hh => hpD (hh ▸ h)
            have hqj : q ≠ j := fun hh => hjD (hh ▸ h)
            rw [hc2other q hqp hqj]
            exact hDold q h)
        (fun q hqh hqj hqS => by
          have hqp : q ≠ p := fun h => hqS (h ▸ hpS)
          rw [hc2other q hqp hqj]
          exact hout q hqh hqj hqS)
    rw [hfold]
    refine ⟨ha, ?_, ?_, ?_, he⟩
    · rw [hb]
      congr 1
      simp only [List.toFinset_cons, Finset.union_insert, Finset.insert_union]
    · intro q hq hqD hql
      have hql' : q ∉ l' := fun h => hql (by simp [h])
      have hqp : q ≠ p := fun h => hql (by simp [h])
      exact hc' q hq (by simp only [Finset.mem_insert, not_or]; exact ⟨hqp, hqD⟩) hql'
    · intro q hq
      apply hd
      simp only [List.toFinset_cons, Finset.union_insert, Finset.insert_union] at hq ⊢
      simpa using hq

lemma joinStep_inv (host : String) (S : Finset String) (j : String)
    (hhS : host ∉ S) (hjS : j ∉ S) (hjh : j ≠ host)
    (c : String → Finset String)
    (h1 : c host = S)
    (h2 : ∀ p ∈ S, c p = (insert host S).erase p)
    (h3 : ∀ q, q ≠ host → q ∉ S → c q = ∅) :
    joinStep host c j host = insert j S ∧
    (∀ p ∈ insert j S, joinStep host c j p = (insert host (insert j S)).erase p) ∧
    (∀ q, q ≠ host → q ∉ insert j S → joinStep host c j q = ∅) := by
  have hcj0 : c j = ∅ := h3 j hjh hjS
  set c1 := record (record c j host) host j with hc1def
  have hc1h : c1 host = insert j S := by
    rw [hc1def, record_self, record_other c j host host (Ne.symm hjh), h1]
  have hc1j : c1 j = insert host (∅ : Finset String) := by
    rw [hc1def, record_other (record c j host) host j j hjh, record_self, hcj0]
  have hc1p : ∀ q, q ≠ host → q ≠ j → c1 q = c q := by
    intro q hqh hqj
    rw [hc1def, record_other (record c j host) host j q hqh, record_other c j host q hqj]
  have hform : joinStep host c j = meshFold j (((c1 host).erase j).sort (· ≤ ·)) c1 := rfl
  rw [hc1h, Finset.erase_insert hjS] at hform
  obtain ⟨ga, gb, gc', gd, ge⟩ := meshFold_inv host j S hhS hjS hjh (S.sort (· ≤ ·)) ∅ c1
    (Finset.sort_nodup _ _) (fun x hx => (Finset.mem_sort _).mp hx)
    (fun x _ => Finset.not_mem_empty x) (Finset.not_mem_empty host) (Finset.not_mem_empty j)
    (Finset.empty_subset S) hc1h hc1j
    (fun p hp _ => by
      rw [hc1p p (fun h => hhS (h ▸ hp)) (fun h => hjS (h ▸ hp))]
      exact h2 p hp)
    (fun p hp => absurd hp (Finset.not_mem_empty p))
    (fun q hqh hqj hqS => by rw [hc1p q hqh hqj]; exact h3 q hqh hqS)
  have hl : (S.sort (· ≤ ·)).toFinset = S := Finset.sort_toFinset _ _
  rw [hl] at gb gd
  simp only [Finset.empty_union] at gb gd
  refine ⟨by rw [hform]; exact ga, ?_, ?_⟩
  · intro p hp
    rw [hform]
    rcases Finset.mem_insert.mp hp with h | h
    · subst h
      rw [gb, Finset.erase_insert_of_ne (Ne.symm hjh), Finset.erase_insert hjS]
    · have hph : p ≠ host := fun hh => hhS (hh ▸ h)
      have hpj : p ≠ j := fun hh => hjS (hh ▸ h)
      rw [gd p h, Finset.erase_insert_of_ne (Ne.symm hph)]
      ext x
      simp only [Finset.mem_insert, Finset.mem_erase]
      constructor
      · rintro (rfl | rfl | ⟨hxp, hxS⟩)
        · exact ⟨Ne.symm hpj, Or.inr (Or.inl rfl)⟩
        · exact ⟨Ne.symm hph, Or.inl rfl⟩
        · exact ⟨hxp, Or.inr (Or.inr hxS)⟩
      · rintro ⟨hxp, (rfl | rfl | hxS)⟩
        · exact Or.inr (Or.inl rfl)
        · exact Or.inl rfl
        · exact Or.inr (Or.inr ⟨hxp, hxS⟩)
  · intro q hqh hq
    have hqj : q ≠ j := fun hh => hq (hh ▸ Finset.mem_insert_self j S)
    have hqS : q ∉ S := fun hh => hq (Finset.mem_insert_of_mem hh)
    rw [hform]
    exact ge q hqh hqj hqS

lemma simulate_inv (host : String) :
    ∀ (js : List String) (S : Finset String) (c : String → Finset String),
      js.Nodup → host ∉ js → (∀ x ∈ js, x ∉ S) → host ∉ S →
      c host = S →
      (∀ p ∈ S, c p = (insert host S).erase p) →
      (∀ q, q ≠ host → q ∉ S → c q = ∅) →
      (js.foldl (joinStep host) c) host = S ∪ js.toFinset ∧
      (∀ p ∈ S ∪ js.toFinset,
        (js.foldl (joinStep host) c) p = (insert host (S ∪ js.toFinset)).erase p) ∧
      (∀ q, q ≠ host → q ∉ S ∪ js.toFinset → (js.foldl (joinStep host) c) q = ∅) := by
  intro js
  induction js with
  | nil =>
    intro S c _ _ _ _ h1 h2 h3
    simpa using ⟨h1, h2, h3⟩
  | cons j js' ih =>
    intro S c hnd hh hfresh hhS h1 h2 h3
    have hjS : j ∉ S := hfresh j (by simp)
    have hjh : j ≠ host := by
      intro hh'
      exact hh (hh' ▸ List.mem_cons_self j js')
    obtain ⟨k1, k2, k3⟩ := joinStep_inv host S j hhS hjS hjh c h1 h2 h3
    have hstep : (j :: js').foldl (joinStep host) c = js'.foldl (joinStep host) (joinStep host c j) := by
      simp [List.foldl_cons]
    obtain ⟨m1, m2, m3⟩ := ih (insert j S) (joinStep host c j) hnd.of_cons
      (fun hh' => hh (List.mem_cons_of_mem j hh'))
      (fun x hx => by
        simp only [Finset.mem_insert, not_or]
        exact ⟨fun hh' => (List.nodup_cons.mp hnd).1 (hh' ▸ hx), hfresh x (by simp [hx])⟩)
      (by simp only [Finset.mem_insert, not_or]; exact ⟨Ne.symm hjh, hhS⟩)
      k1 k2 k3
    have hset : insert j S ∪ js'.toFinset = S ∪ (j :: js').toFinset := by
      simp only [List.toFinset_cons, Finset.union_insert, Finset.insert_union]
    rw [hset] at m1 m2 m3
    exact ⟨by rw [hstep]; exact m1, by rw [hstep]; exact m2, by rw [hstep]; exact m3⟩

/-- C1: Mesh convergence: for any sequence of `peer_list` exchanges
starting from one bootstrap connection among the `N = joiners.length + 1`
participating peers (distinct ids, every outbound connection attempt
succeeding), every peer ends with exactly `N − 1` recorded connections —
one per other participant, keyed by remote peer id — regardless of the
order in which the joiners arrive. -/
theorem C1_mesh_convergence (host : String) (joiners : List String)
    (hnd : joiners.Nodup) (hh : host ∉ joiners) :
    ∀ p ∈ host :: joiners,
      simulate host joiners p = (insert host joiners.toFinset).erase p ∧
      (simulate host joiners p).card = (host :: joiners).length - 1 := by
  obtain ⟨m1, m2, m3⟩ := simulate_inv host joiners ∅ (fun _ => ∅) hnd hh
    (fun x _ => Finset.not_mem_empty x) (Finset.not_mem_empty host) rfl
    (fun p hp => absurd hp (Finset.not_mem_empty p))
    (fun q _ _ => rfl)
  simp only [Finset.empty_union] at m1 m2
  have hhf : host ∉ joiners.toFinset := by simpa using hh
  have hcard : joiners.toFinset.card = joiners.length := List.toFinset_card_of_nodup hnd
  intro p hp
  have hsim : simulate host joiners = joiners.foldl (joinStep host) (fun _ => ∅) := rfl
  rcases List.mem_cons.mp hp with hph | hpj
  · subst hph
    have hval : simulate p joiners p = (insert p joiners.toFinset).erase p := by
      rw [hsim, m1, Finset.erase_insert hhf]
    refine ⟨hval, ?_⟩
    rw [hval, Finset.erase_insert hhf, hcard]
    simp
  · have hpf : p ∈ joiners.toFinset := List.mem_toFinset.mpr hpj
    have hval : simulate host joiners p = (insert host joiners.toFinset).erase p := by
      rw [hsim]; exact m2 p hpf
    refine ⟨hval, ?_⟩
    rw [hval, Finset.card_erase_of_mem (Finset.mem_insert_of_mem hpf),
      Finset.card_insert_of_not_mem hhf, hcard]
    simp

/-- Witness for C1 at a concrete session: host plus three joiners, each
peer ends with connections to exactly the 3 other peers. -/
theorem C1_mesh_witness :
    simulate "host-123456789" ["alice", "bob", "carol"] "bob" =
      {"host-123456789", "alice", "carol"} ∧
    (simulate "host-123456789" ["alice", "bob", "carol"] "bob").card = 3 := by
  obtain ⟨h1, h2⟩ := C1_mesh_convergence "host-123456789" ["alice", "bob", "carol"]
    (by decide) (by decide) "bob" (by decide)
  refine ⟨?_, by simpa using h2⟩
  rw [h1]
  decide

/-! ## Association-list (JS `Map`) lemmas -/

lemma mapHas_false_find? {α : Type} (m : List (String × α)) (k : String)
    (h : mapHas m k = false) : m.find? (fun kp => kp.1 == k) = none := by
  rw [List.find?_eq_none]
  intro kp hkp
  exact (List.any_eq_false.mp h) kp hkp

lemma setFun_pred_self {α : Type} (k : String) (v : α) :
    ((fun kp : String × α => kp.1 == k) ∘ (fun kp => if kp.1 == k then (k, v) else kp)) =
      (fun kp : String × α => kp.1 == k) := by
  funext kp
  by_cases h : kp.1 == k
  · simp [Function.comp, h]
  · simp [Function.comp, h]

lemma setFun_pred_other {α : Type} (k k' : String) (v : α) (h : k' ≠ k) :
    ((fun kp : String × α => kp.1 == k') ∘ (fun kp => if kp.1 == k then (k, v) else kp)) =
      (fun kp : String × α => kp.1 == k') := by
  funext kp
  by_cases hk : kp.1 == k
  · have hk' : kp.1 = k := by simpa using hk
    have h1 : (k == k') = false := by simpa using Ne.symm h
    have h2 : (kp.1 == k') = false := by simpa [hk'] using Ne.symm h
    simp [Function.comp, hk, h1, h2]
  · simp [Function.comp, hk]

lemma mapGet_mapSet_self {α : Type} (m : List (String × α)) (k : String) (v : α) :
    mapGet (mapSet m k v) k = some v := by
  by_cases hhas : mapHas m k = true
  · have hsome : (m.find? (fun kp => kp.1 == k)).isSome :=
      List.find?_isSome.mpr (by simpa [mapHas, List.any_eq_true] using hhas)
    cases hkp0 : m.find? (fun kp => kp.1 == k) with
    | none => rw [hkp0] at hsome; simp at hsome
    | some kp0 =>
      have hk0 := List.find?_some hkp0
      simp only [mapSet, hhas, if_true, mapGet, List.find?_map, setFun_pred_self, hkp0]
      simp only at hk0
      have hk0e : kp0.1 = k := by simpa using hk0
      simp [hk0e]
  · have hf : mapHas m k = false := by simpa using hhas
    simp only [mapSet, hf, Bool.false_eq_true, if_false, mapGet, List.find?_append,
      mapHas_false_find? m k hf]
    simp [List.find?_cons]

lemma mapGet_mapSet_other {α : Type} (m : List (String × α)) (k k' : String) (v : α)
    (h : k' ≠ k) : mapGet (mapSet m k v) k' = mapGet m k' := by
  have hkk' : (k == k') = false := by simpa using Ne.symm h
  by_cases hhas : mapHas m k = true
  · simp only [mapSet, hhas, if_true, mapGet, List.find?_map, setFun_pred_other k k' v h]
    cases hfind : m.find? (fun kp => kp.1 == k') with
    | none => simp
    | some kp0 =>
      have hk0 := List.find?_some hfind
      simp only at hk0
      have hk0' : ¬(kp0.1 = k) := by
        have h1 : kp0.1 = k' := by simpa using hk0
        simp [h1]
        exact h
      simp [hk0']
  · have hf : mapHas m k = false := by simpa using hhas
    simp only [mapSet, hf, Bool.false_eq_true, if_false, mapGet, List.find?_append]
    have hnone : List.find? (fun kp => kp.1 == k') [(k, v)] = none := by simp [hkk']
    simp [hnone]

lemma mapHas_of_get {α : Type} (m : List (String × α)) (k : String) (v : α)
    (h : mapGet m k = some v) : mapHas m k = true := by
  unfold mapGet at h
  cases hf : m.find? (fun kp => kp.1 == k) with
  | none => rw [hf] at h; simp at h
  | some kp =>
    have hp := List.find?_some hf
    simp only at hp
    simp only [mapHas, List.any_eq_true]
    exact ⟨kp, List.mem_of_find?_eq_some hf, hp⟩

lemma mapGet_of_has {α : Type} (m : List (String × α)) (k : String)
    (h : mapHas m k = true) : ∃ v, mapGet m k = some v := by
  simp only [mapHas, List.any_eq_true] at h
  have hsome : (m.find? (fun kp => kp.1 == k)).isSome := List.find?_isSome.mpr h
  cases hf : m.find? (fun kp => kp.1 == k) with
  | none => rw [hf] at hsome; simp at hsome
  | some kp => exact ⟨kp.2, by simp [mapGet, hf]⟩

lemma mapSet_keys {α : Type} (m : List (String × α)) (k : String) (v : α)
    (h : mapHas m k = true) : (mapSet m k v).map Prod.fst = m.map Prod.fst := by
  simp only [mapSet, h, if_true, List.map_map]
  apply List.map_congr_left
  intro kp _
  by_cases hk : kp.1 == k
  · have : kp.1 = k := by simpa using hk
    simp [Function.comp, hk, this]
  · simp [Function.comp, hk]

lemma mapSet_members {α : Type} (m : List (String × α)) (k : String) (v : α)
    (hhas : mapHas m k = true) :
    ∀ kp ∈ mapSet m k v, kp = (k, v) ∨ (kp ∈ m ∧ kp.1 ≠ k) := by
  intro kp hkp
  simp only [mapSet, hhas, if_true, List.mem_map] at hkp
  obtain ⟨kp0, hkp0, heq⟩ := hkp
  by_cases hk : kp0.1 == k
  · left
    rw [← heq]
    simp [hk]
  · right
    have hne : kp0.1 ≠ k := by simpa using hk
    rw [← heq]
    simp [hk, hkp0, hne]

/-- C3: `clearVotes()` on the issuing peer sets `revealed` to false,
nulls every player's vote and broadcasts `clear_votes`; a peer receiving
`clear_votes` applies the same reset to its mirrored state and does not
re-broadcast. -/
theorem C3_clearVotes_resets (s : GMState) (now : ℤ) (sender : String) :
    ((clearVotes s true).1.votesRevealed = false ∧
     (∀ kp ∈ (clearVotes s true).1.players, kp.2.vote = none) ∧
     (clearVotes s true).2 = [Effect.broadcast Msg.clear_votes]) ∧
    ((handlePeerMessage now s sender Msg.clear_votes).1.votesRevealed = false ∧
     (∀ kp ∈ (handlePeerMessage now s sender Msg.clear_votes).1.players, kp.2.vote = none) ∧
     (handlePeerMessage now s sender Msg.clear_votes).2 = []) := by
  refine ⟨⟨rfl, ?_, rfl⟩, rfl, ?_, rfl⟩ <;>
  · intro kp hkp
    simp only [handlePeerMessage, clearVotes, List.mem_map] at hkp
    obtain ⟨kp0, _, heq⟩ := hkp
    rw [← heq]

/-- C10: `expireReaction(peerId, expected)` nulls the player's reaction
exactly when the player exists and still holds the expected reaction; in
every other case (no such player, or the reaction has changed since the
timer was armed) the player map is left unchanged, so a stale timer never
clears a newer reaction. -/
theorem C10_expireReaction_guard (now : ℤ) (s : GMState) (pid expected : String) :
    (∀ p, mapGet s.players pid = some p → p.reaction = some expected →
      (expireReaction now s pid expected).1.players =
        mapSet s.players pid { p with reaction := none } ∧
      mapGet (expireReaction now s pid expected).1.players pid =
        some { p with reaction := none }) ∧
    (mapGet s.players pid = none → (expireReaction now s pid expected).1 = s) ∧
    (∀ p, mapGet s.players pid = some p → p.reaction ≠ some expected →
      (expireReaction now s pid expected).1 = s) := by
  refine ⟨?_, ?_, ?_⟩
  · intro p hget hre
    have hstate : (expireReaction now s pid expected).1.players =
        mapSet s.players pid { p with reaction := none } := by
      simp [expireReaction, hget, hre]
    exact ⟨hstate, by rw [hstate]; exact mapGet_mapSet_self _ _ _⟩
  · intro hget
    simp [expireReaction, hget]
  · intro p hget hre
    simp [expireReaction, hget, hre]

/-- Witness for C10: the remote player's active reaction is cleared by a
matching timer. -/
theorem C10_witness :
    mapGet (expireReaction 0 gmReact "you" "clap").1.players "you" =
      some { pReact with reaction := none } :=
  ((C10_expireReaction_guard 0 gmReact "you" "clap").1 pReact (by decide) rfl).2

/-- C8: handling a remote `reaction` message carrying a non-null reaction
and a (truthy) origin timestamp arms the expiry timer with duration
`max(5000 - (now - originTimestamp), 100)`; in particular a reaction
received 3000ms after its origin expires 2000ms after receipt. -/
theorem C8_remote_reaction_timer (now ts : ℤ) (s : GMState) (sender e : String) (p : Player)
    (hp : mapGet s.players sender = some p) (hts : ts ≠ 0) :
    (handlePeerMessage now s sender (Msg.reaction (some e) ts)).2 =
      [Effect.clearTimer sender,
       Effect.setReactionTimer sender e (max (5000 - (now - ts)) 100)] ∧
    (handlePeerMessage (ts + 3000) s sender (Msg.reaction (some e) ts)).2 =
      [Effect.clearTimer sender, Effect.setReactionTimer sender e 2000] := by
  constructor
  · simp [handlePeerMessage, hp, hts]
  · have harith : max (5000 - (ts + 3000 - ts)) 100 = (2000 : ℤ) := by
      have h1 : ts + 3000 - ts = (3000 : ℤ) := by ring
      rw [h1]
      decide
    simp [handlePeerMessage, hp, hts, harith]

/-- Witness for C8: a reaction stamped 1000 handled at time 4000 is
scheduled to expire after 2000ms, not 5000ms. -/
theorem C8_witness :
    (handlePeerMessage (1000 + 3000) gmReact "you" (Msg.reaction (some "wave") 1000)).2 =
      [Effect.clearTimer "you", Effect.setReactionTimer "you" "wave" 2000] :=
  (C8_remote_reaction_timer 0 1000 gmReact "you" "wave" pReact (by decide) (by decide)).2

/-- C6 (amended): the defensive self-message check lives in
`PeerManager.handlePeerData`: any data whose sender id equals the local
transport id is dropped before dispatch, so for every catalog message
type both the connection state and the game state are left unchanged and
nothing is emitted.  Inside `GameManager.handlePeerMessage` itself, only
`player_data` checks the sender against the local id. -/
theorem C6_self_messages_dropped :
    (∀ (now : ℤ) (pm : PMState) (gm : GMState) (sender : String) (m : Msg),
      pm.peerId = some sender → handlePeerData now pm gm sender m = (pm, gm, [])) ∧
    (∀ (now : ℤ) (gm : GMState) (sender : String) (p : Player),
      gm.localPeerId = some sender →
        handlePeerMessage now gm sender (Msg.player_data p) = (gm, [])) := by
  constructor
  · intro now pm gm sender m h
    simp [handlePeerData, h]
  · intro now gm sender p h
    simp [handlePeerMessage, h]

/-- Witness for C6: a `clear_votes` arriving from the local id itself is
dropped by the transport layer. -/
theorem C6_witness :
    handlePeerData 0 pmJoiner gmTwo "p1" Msg.clear_votes = (pmJoiner, gmTwo, []) :=
  C6_self_messages_dropped.1 0 pmJoiner gmTwo "p1" Msg.clear_votes rfl

/-- Counterexample for C6 as stated: `handlePeerMessage` invoked directly
with a sender id equal to the local peer id and a `vote` message does
mutate the local player's state (only `player_data` is guarded there). -/
theorem C6_counterexample :
    mapGet (handlePeerMessage 0 gmTwo "me" (Msg.vote (some Card.c5))).1.players "me" ≠
      mapGet gmTwo.players "me" := by decide

/-- C7 (amended): only the host answers an accepted inbound connection
with a `peer_list`; the list holds every recorded connection except the
new peer, and never the sender's own id (which is never recorded as a
connection to itself). A non-host peer accepting an inbound connection
sends nothing. -/
theorem C7_peer_list_host_only :
    (∀ (pm : PMState) (remote : String), pm.isHost = true →
      (handleIncomingConnection pm remote).2 =
        [Effect.broadcast (Msg.connection_update (insertKey pm.connections remote)),
         Effect.sendTo remote (Msg.peer_list
           ((insertKey pm.connections remote).filter (fun id => id != remote)))] ∧
      (∀ x, x ∈ (insertKey pm.connections remote).filter (fun id => id != remote) ↔
        (x ∈ insertKey pm.connections remote ∧ x ≠ remote)) ∧
      (∀ self, pm.peerId = some self → self ∉ pm.connections → self ≠ remote →
        self ∉ (insertKey pm.connections remote).filter (fun id => id != remote))) ∧
    (∀ (pm : PMState) (remote : String), pm.isHost = false →
      (handleIncomingConnection pm remote).2 = []) := by
  constructor
  · intro pm remote hhost
    refine ⟨by simp [handleIncomingConnection, hhost], ?_, ?_⟩
    · intro x
      simp [List.mem_filter, bne_iff_ne]
    · intro self hself hnotin hne hmem
      rw [List.mem_filter] at hmem
      rcases hmem with ⟨hmem1, _⟩
      unfold insertKey at hmem1
      by_cases hc : pm.connections.contains remote
      · rw [if_pos hc] at hmem1
        exact hnotin hmem1
      · rw [if_neg hc] at hmem1
        rcases List.mem_append.mp hmem1 with h | h
        · exact hnotin h
        · exact hne (List.mem_singleton.mp h)
  · intro pm remote hhost
    simp [handleIncomingConnection, hhost]

/-- Witness for C7 (amended): a host with one recorded connection sends
the new peer exactly that one peer id. -/
theorem C7_witness :
    (handleIncomingConnection pmHost "p2").2 =
      [Effect.broadcast (Msg.connection_update ["p1", "p2"]),
       Effect.sendTo "p2" (Msg.peer_list ["p1"])] := by
  have h := (C7_peer_list_host_only.1 pmHost "p2" rfl).1
  rw [h]
  decide

/-- Counterexample for C7 as stated: a non-host peer accepting an inbound
connection sends no `peer_list` at all. -/
theorem C7_counterexample :
    (handleIncomingConnection pmJoiner "p2").2 = [] ∧
    ¬ ∃ l, Effect.sendTo "p2" (Msg.peer_list l) ∈ (handleIncomingConnection pmJoiner "p2").2 := by
  constructor
  · rfl
  · rintro ⟨l, hl⟩
    simp [handleIncomingConnection, pmJoiner] at hl

/-- C5: re-establishing the local identity when the local player entry
already exists updates that entry in place: the key list is unchanged,
the id still occurs exactly once, the entry carries the refreshed profile
with `isLocal = true`, and no second `isLocal` entry appears. -/
theorem C5_local_identity_idempotent (s : GMState) (pid : String) (pd : PlayerData)
    (hpid : s.localPeerId = some pid) (hpd : s.playerData = some pd)
    (hex : mapHas s.players pid = true)
    (hnodup : (s.players.map Prod.fst).Nodup)
    (hloc : ∀ kp ∈ s.players, kp.2.isLocal = true → kp.1 = pid) :
    ((addLocalPlayer s).1.players.map Prod.fst = s.players.map Prod.fst) ∧
    (((addLocalPlayer s).1.players.map Prod.fst).count pid = 1) ∧
    (∃ old, mapGet s.players pid = some old ∧
      mapGet (addLocalPlayer s).1.players pid =
        some { old with name := pd.name, email := pd.email, avatar := pd.avatar,
                        isLocal := true }) ∧
    (∀ kp ∈ (addLocalPlayer s).1.players, kp.2.isLocal = true ↔ kp.1 = pid) := by
  obtain ⟨old, hold⟩ := mapGet_of_has s.players pid hex
  have hstate : (addLocalPlayer s).1.players =
      mapSet s.players pid
        { old with name := pd.name, email := pd.email, avatar := pd.avatar,
                   isLocal := true } := by
    simp [addLocalPlayer, hpid, hpd, hold]
  have hmem : pid ∈ s.players.map Prod.fst := by
    simp only [mapHas, List.any_eq_true] at hex
    obtain ⟨kp, hkp, hbeq⟩ := hex
    have hk : kp.1 = pid := by simpa using hbeq
    exact hk ▸ List.mem_map_of_mem Prod.fst hkp
  refine ⟨?_, ?_, ⟨old, hold, ?_⟩, ?_⟩
  · rw [hstate]
    exact mapSet_keys _ _ _ hex
  · rw [hstate, mapSet_keys _ _ _ hex]
    exact List.count_eq_one_of_mem hnodup hmem
  · rw [hstate]
    exact mapGet_mapSet_self _ _ _
  · intro kp hkp
    rw [hstate] at hkp
    rcases mapSet_members _ _ _ hex kp hkp with h | ⟨hmemkp, hne⟩
    · rw [h]
      simp
    · constructor
      · intro hl
        exact absurd (hloc kp hmemkp hl) hne
      · intro h1
        exact (hne h1).elim

/-- Witness for C5: re-deriving the local identity on a state that
already holds the local entry changes no keys and keeps one entry. -/
theorem C5_witness :
    (addLocalPlayer gmTwo).1.players.map Prod.fst = gmTwo.players.map Prod.fst ∧
    ((addLocalPlayer gmTwo).1.players.map Prod.fst).count "me" = 1 := by
  have h := C5_local_identity_idempotent gmTwo "me" { name := "Me" } rfl rfl
    (by decide) (by decide) (by decide)
  exact ⟨h.1, h.2.1⟩

lemma checkVotingComplete_spec (s : GMState) :
    Effect.scheduleReveal 500 ∈ checkVotingComplete s ↔
      (s.votesRevealed = false ∧ 0 < s.players.length ∧
        ∀ kp ∈ s.players, kp.2.vote ≠ none) := by
  unfold checkVotingComplete
  by_cases hrev : s.votesRevealed
  · simp [hrev]
  · have hrev' : s.votesRevealed = false := by simpa using hrev
    simp only [hrev', Bool.false_eq_true, if_false]
    by_cases hcond : 0 < s.players.length ∧
        (s.players.filter fun kp => kp.2.vote != none).length = s.players.length
    · rw [if_pos hcond]
      simp only [List.mem_singleton, true_iff]
      refine ⟨by trivial, hcond.1, ?_⟩
      intro kp hkp
      have := List.filter_length_eq_length.mp hcond.2 kp hkp
      simpa using this
    · rw [if_neg hcond]
      simp only [List.not_mem_nil, false_iff, not_and]
      intro _ hlen hall
      exact hcond ⟨hlen, List.filter_length_eq_length.mpr
        (fun kp hkp => by simpa using hall kp hkp)⟩

/-- C4: after every vote mutation — a local `castVote`, a remote `vote`
message, or removal of a player (`removePeer` or a `player_disconnected`
message) — `showVotes()` is scheduled with the fixed 500ms debounce
exactly when the state is not already revealed, the player count is
nonzero and every player holds a non-null vote; and the scheduled
`showVotes` sets `revealed` to true, so no explicit call is needed.  When
already revealed or some vote is null, nothing is scheduled. -/
theorem C4_auto_reveal :
    (∀ (s : GMState) (v : Card) (pid : String) (p : Player),
      s.localPeerId = some pid → mapGet s.players pid = some p →
      (Effect.scheduleReveal 500 ∈ (castVote s v).2 ↔
        (s.votesRevealed = false ∧ 0 < (castVote s v).1.players.length ∧
          ∀ kp ∈ (castVote s v).1.players, kp.2.vote ≠ none))) ∧
    (∀ (now : ℤ) (s : GMState) (sender : String) (vv : Option Card) (p : Player),
      mapGet s.players sender = some p →
      (Effect.scheduleReveal 500 ∈ (handlePeerMessage now s sender (Msg.vote vv)).2 ↔
        (s.votesRevealed = false ∧
          0 < (handlePeerMessage now s sender (Msg.vote vv)).1.players.length ∧
          ∀ kp ∈ (handlePeerMessage now s sender (Msg.vote vv)).1.players,
            kp.2.vote ≠ none))) ∧
    (∀ (s : GMState) (pid : String), mapHas s.players pid = true →
      (Effect.scheduleReveal 500 ∈ (removePeer s pid).2 ↔
        (s.votesRevealed = false ∧ 0 < (removePeer s pid).1.players.length ∧
          ∀ kp ∈ (removePeer s pid).1.players, kp.2.vote ≠ none))) ∧
    (∀ (now : ℤ) (s : GMState) (sender dpid : String), mapHas s.players dpid = true →
      (Effect.scheduleReveal 500 ∈
          (handlePeerMessage now s sender (Msg.player_disconnected dpid)).2 ↔
        (s.votesRevealed = false ∧
          0 < (handlePeerMessage now s sender (Msg.player_disconnected dpid)).1.players.length ∧
          ∀ kp ∈ (handlePeerMessage now s sender (Msg.player_disconnected dpid)).1.players,
            kp.2.vote ≠ none))) ∧
    (∀ (s : GMState) (b : Bool), (showVotes s b).1.votesRevealed = true) := by
  refine ⟨?_, ?_, ?_, ?_, fun s b => rfl⟩
  · intro s v pid p hpid hp
    simp only [castVote, hpid, hp, List.mem_append]
    rw [checkVotingComplete_spec]
    simp
  · intro now s sender vv p hp
    simp only [handlePeerMessage, hp]
    rw [checkVotingComplete_spec]
  · intro s pid hhas
    simp only [removePeer, hhas, if_true, List.mem_append]
    rw [checkVotingComplete_spec]
    cases hl : s.localPeerId <;> simp
  · intro now s sender dpid hhas
    simp only [handlePeerMessage, hhas, if_true]
    rw [checkVotingComplete_spec]

/-- Witness for C4: on a two-player state where the remote player has
voted, the local `castVote` completes the round and schedules the
500ms auto-reveal. -/
theorem C4_witness :
    Effect.scheduleReveal 500 ∈ (castVote gmTwo Card.c5).2 :=
  (C4_auto_reveal.1 gmTwo Card.c5 "me" pMe rfl (by decide)).mpr (by decide)

lemma roundHalfEven_err (q : ℚ) : |(roundHalfEven q : ℚ) - q| ≤ 1/2 := by
  have h0 : (⌊q⌋ : ℚ) ≤ q := Int.floor_le q
  have h1 : q < ⌊q⌋ + 1 := Int.lt_floor_add_one q
  unfold roundHalfEven
  split_ifs with ha hb hc <;> rw [abs_le] <;> constructor <;> push_cast <;> linarith

lemma toDouble_err (q : ℚ) (hq : 0 < q) :
    |toDouble q - q| ≤ 2 ^ (ratLog2 q - 53) := by
  have hne : ¬(q ≤ 0) := not_le.mpr hq
  have hupos : (0:ℚ) < 2 ^ (ratLog2 q - 52) := by positivity
  have herr := roundHalfEven_err (q / 2 ^ (ratLog2 q - 52))
  have hsplit : (roundHalfEven (q / 2 ^ (ratLog2 q - 52)) : ℚ) * 2 ^ (ratLog2 q - 52) - q =
      ((roundHalfEven (q / 2 ^ (ratLog2 q - 52)) : ℚ) - q / 2 ^ (ratLog2 q - 52)) *
        2 ^ (ratLog2 q - 52) := by
    field_simp
  have hhalf : (2:ℚ) ^ (ratLog2 q - 53) = 2 ^ (ratLog2 q - 52) * (1/2) := by
    rw [show ratLog2 q - 53 = (ratLog2 q - 52) + (-1) by ring,
      zpow_add₀ (by norm_num : (2:ℚ) ≠ 0)]
    norm_num
  simp only [toDouble, if_neg hne]
  rw [hsplit, abs_mul, abs_of_pos hupos, hhalf, mul_comm (|_|)]
  exact mul_le_mul_of_nonneg_left herr (le_of_lt hupos)

lemma toDouble_3_20 : toDouble (3/20) = 5404319552844595 / 36028797018963968 := by
  have hnum : ((3:ℚ)/20).num = 3 := by norm_num
  have hden : ((3:ℚ)/20).den = 20 := by norm_num
  have ht : ((3:ℤ)).toNat = 3 := rfl
  have h3 : Nat.log2 3 = 1 := by simp [Nat.log2]
  have h20 : Nat.log2 20 = 4 := by simp [Nat.log2]
  have hlog : ratLog2 (3/20) = -3 := by
    simp only [ratLog2, hnum, hden, ht, h3, h20]
    norm_num
  have hne : ¬((3:ℚ)/20 ≤ 0) := by norm_num
  have hdiv : ((3:ℚ)/20) / 2 ^ ((-3:ℤ) - 52) = 27021597764222976/5 := by norm_num
  have hfl : ⌊(27021597764222976/5 : ℚ)⌋ = 5404319552844595 := by
    norm_num [Int.floor_eq_iff]
  have hrnd : roundHalfEven (27021597764222976/5) = 5404319552844595 := by
    simp only [roundHalfEven, hfl]
    norm_num
  simp only [toDouble, if_neg hne, hlog, hdiv, hrnd]
  norm_num

lemma toDouble_7_6 : toDouble (7/6) = 5254199565265579 / 4503599627370496 := by
  have hnum : ((7:ℚ)/6).num = 7 := by norm_num
  have hden : ((7:ℚ)/6).den = 6 := by norm_num
  have ht : ((7:ℤ)).toNat = 7 := rfl
  have h7 : Nat.log2 7 = 2 := by simp [Nat.log2]
  have h6 : Nat.log2 6 = 2 := by simp [Nat.log2]
  have hlog : ratLog2 (7/6) = 0 := by
    simp only [ratLog2, hnum, hden, ht, h7, h6]
    norm_num
  have hne : ¬((7:ℚ)/6 ≤ 0) := by norm_num
  have hdiv : ((7:ℚ)/6) / 2 ^ ((0:ℤ) - 52) = 15762598695796736/3 := by norm_num
  have hfl : ⌊(15762598695796736/3 : ℚ)⌋ = 5254199565265578 := by
    norm_num [Int.floor_eq_iff]
  have hrnd : roundHalfEven (15762598695796736/3) = 5254199565265579 := by
    simp only [roundHalfEven, hfl]
    norm_num
  simp only [toDouble, if_neg hne, hlog, hdiv, hrnd]
  norm_num

/-- C9 (amended): `calculateAverage` returns `null` when no vote parses
numerically, and otherwise `toFixed(1)` of the binary64 mean — the
correctly rounded double quotient of the (exactly summed) parseable
subset, which stays within half an ulp of the exact mean; `[½,1,2]`
yields 1.2 and `[?,?]` yields `null`.  At an exact decimal-rounding tie
of the true mean the double decides: `tieVotes` (mean exactly 0.15)
yields 0.1, not 0.2. -/
theorem C9_calculateAverage_spec :
    (∀ votes : List Card, numericVotes votes = [] → calculateAverage votes = none) ∧
    (∀ votes : List Card, numericVotes votes ≠ [] →
      calculateAverage votes =
        some (roundTo1 (floatDiv (numericVotes votes).sum
          ((numericVotes votes).length : ℚ)))) ∧
    (∀ q : ℚ, 0 < q → |toDouble q - q| ≤ 2 ^ (ratLog2 q - 53)) ∧
    calculateAverage [Card.chalf, Card.c1, Card.c2] = some (6/5) ∧
    calculateAverage [Card.cq, Card.cq] = none ∧
    calculateAverage tieVotes = some (1/10) := by
  have hnums3 : numericVotes [Card.chalf, Card.c1, Card.c2] = [1/2, 1, 2] := by
    simp [numericVotes, Card.parseNum]
  have htie : numericVotes tieVotes = [1/2, 1/2, 1/2, 0, 0, 0, 0, 0, 0, 0] := by
    simp [numericVotes, tieVotes, Card.parseNum]
  refine ⟨?_, ?_, fun q hq => toDouble_err q hq, ?_, ?_, ?_⟩
  · intro votes h
    simp [calculateAverage, h]
  · intro votes h
    have hlen : ¬(numericVotes votes).length = 0 := by
      simpa using fun hh => h (List.length_eq_zero.mp hh)
    simp [calculateAverage, hlen]
  · have hq : floatDiv (7/2) 3 = toDouble (7/6) := by
      rw [floatDiv]
      norm_num
    simp only [calculateAverage, hnums3]
    norm_num [roundTo1, round_eq]
    rw [hq, toDouble_7_6]
    norm_num [Int.floor_eq_iff]
  · simp [calculateAverage, numericVotes, Card.parseNum]
  · have hq : floatDiv (3/2) 10 = toDouble (3/20) := by
      rw [floatDiv]
      norm_num
    simp only [calculateAverage, htie]
    norm_num [roundTo1, round_eq]
    rw [hq, toDouble_3_20]
    norm_num [Int.floor_eq_iff]

/-- Witness for C9: a list with no numeric vote averages to `null`. -/
theorem C9_witness : calculateAverage [Card.cq] = none :=
  C9_calculateAverage_spec.1 [Card.cq] rfl

/-- Counterexample for C9 as stated: at `tieVotes` the exact mean is
3/20 = 0.15 and its one-decimal rounding (the spec reading,
`specAverage`) is 0.2, but the program rounds the binary64 quotient
0.1499999999999999944…, returning 0.1. -/
theorem C9_counterexample :
    calculateAverage tieVotes = some (1/10) ∧
    specAverage tieVotes = some (1/5) ∧
    calculateAverage tieVotes ≠ specAverage tieVotes := by
  have htie : numericVotes tieVotes = [1/2, 1/2, 1/2, 0, 0, 0, 0, 0, 0, 0] := by
    simp [numericVotes, tieVotes, Card.parseNum]
  have h1 : calculateAverage tieVotes = some (1/10) := by
    have hq : floatDiv (3/2) 10 = toDouble (3/20) := by
      rw [floatDiv]
      norm_num
    simp only [calculateAverage, htie]
    norm_num [roundTo1, round_eq]
    rw [hq, toDouble_3_20]
    norm_num [Int.floor_eq_iff]
  have h2 : specAverage tieVotes = some (1/5) := by
    simp only [specAverage, htie]
    norm_num [roundTo1, round_eq, Int.floor_eq_iff]
  refine ⟨h1, h2, ?_⟩
  rw [h1, h2]
  norm_num

lemma detectConsensus_cons (v : Card) (rest : List Card) :
    detectConsensus (v :: rest) =
      if (v :: rest).length < 2 then Consensus.insufficient
      else if rest.all (· == v) then Consensus.perfectCard v
      else
        let nums := numericVotes (v :: rest)
        if ((nums.length : ℚ) ≥ (((v :: rest).length : ℚ)) * (4/5)) then
          match listMin nums, listMax nums with
          | some mn, some mx =>
            let range := mx - mn
            if range = 0 then Consensus.perfectNum mn
            else if range ≤ 2 then Consensus.close range
            else if range ≥ 10 then Consensus.divergent mn mx
            else majorityOrNone (v :: rest)
          | _, _ => majorityOrNone (v :: rest)
        else majorityOrNone (v :: rest) := rfl

lemma dedupFirst_mem (l : List Card) (x : Card) : x ∈ dedupFirst l ↔ x ∈ l := by
  have h : ∀ acc : List Card,
      x ∈ l.foldl (fun acc c => if acc.contains c then acc else acc ++ [c]) acc ↔
        x ∈ acc ∨ x ∈ l := by
    induction l with
    | nil => intro acc; simp
    | cons c t ih =>
      intro acc
      simp only [List.foldl_cons]
      by_cases hc : acc.contains c
      · have hcmem : c ∈ acc := by simpa using hc
        rw [if_pos hc, ih]
        constructor
        · rintro (h1 | h1)
          · exact Or.inl h1
          · exact Or.inr (List.mem_cons_of_mem c h1)
        · rintro (h1 | h1)
          · exact Or.inl h1
          · rcases List.mem_cons.mp h1 with rfl | h2
            · exact Or.inl hcmem
            · exact Or.inr h2
      · rw [if_neg hc, ih]
        simp only [List.mem_append, List.mem_singleton, List.mem_cons]
        tauto
  simpa [dedupFirst] using h []

lemma mem_numericKeyCards (c : Card) (h1 : c ≠ Card.chalf) (h2 : c ≠ Card.cq) :
    c ∈ numericKeyCards := by
  cases c <;> simp_all [numericKeyCards]

lemma mem_jsKeys (votes : List Card) (c : Card) (h : c ∈ votes) : c ∈ jsKeys votes := by
  rw [jsKeys, List.mem_append]
  by_cases hn : c = Card.chalf ∨ c = Card.cq
  · right
    rw [dedupFirst_mem, List.mem_filter]
    refine ⟨h, ?_⟩
    rcases hn with rfl | rfl <;> simp
  · left
    rw [List.mem_filter]
    push_neg at hn
    refine ⟨mem_numericKeyCards c hn.1 hn.2, by simpa using h⟩

lemma foldl_max_init_le (votes : List Card) :
    ∀ (l : List Card) (i : ℕ), i ≤ l.foldl (fun m k => max m (votes.count k)) i := by
  intro l
  induction l with
  | nil => intro i; simp
  | cons a t ih =>
    intro i
    simp only [List.foldl_cons]
    exact le_trans (le_max_left i _) (ih _)

lemma count_le_foldl_max (votes : List Card) :
    ∀ (l : List Card) (i : ℕ) (k : Card), k ∈ l →
      votes.count k ≤ l.foldl (fun m k => max m (votes.count k)) i := by
  intro l
  induction l with
  | nil => intro i k hk; simp at hk
  | cons a t ih =>
    intro i k hk
    simp only [List.foldl_cons]
    rcases List.mem_cons.mp hk with rfl | hk'
    · exact le_trans (le_max_right i _) (foldl_max_init_le votes t _)
    · exact ih _ k hk'

lemma count_le_jsMaxCount (votes : List Card) (c : Card) (h : c ∈ votes) :
    votes.count c ≤ jsMaxCount votes :=
  count_le_foldl_max votes (jsKeys votes) 0 c (mem_jsKeys votes c h)

lemma length_cons_not_lt_two (v : Card) (rest : List Card) (h : rest ≠ []) :
    ¬((v :: rest).length < 2) := by
  have : 0 < rest.length := List.length_pos.mpr h
  simp only [List.length_cons]
  omega

lemma rest_ne_nil_of_all_false (v : Card) (rest : List Card)
    (h : rest.all (· == v) = false) : rest ≠ [] := by
  rintro rfl
  simp at h

/-- C2: the consensus classification of `detectConsensus`: fewer than 2
votes is `insufficient`; all votes identical is `perfect`; when the
numerically parseable subset (½ = 0.5, ? excluded) is at least 80% of all
votes, range 0 is `perfect`, range ≤ 2 `close`, range ≥ 10 `divergent`;
everything else falls through to the tally: `majority` carrying
(label, count, total) when the most frequent vote's count exceeds 60% of
the total, `none` otherwise — together with the six catalog examples. -/
theorem C2_detectConsensus_classification :
    (∀ votes : List Card, votes.length < 2 → detectConsensus votes = Consensus.insufficient) ∧
    (∀ (v : Card) (rest : List Card), rest ≠ [] → rest.all (· == v) = true →
      detectConsensus (v :: rest) = Consensus.perfectCard v) ∧
    (∀ (v : Card) (rest : List Card) (mn mx : ℚ), rest.all (· == v) = false →
      listMin (numericVotes (v :: rest)) = some mn →
      listMax (numericVotes (v :: rest)) = some mx →
      (((numericVotes (v :: rest)).length : ℚ) ≥ (((v :: rest).length : ℚ)) * (4/5)) →
      ((mx - mn = 0 → detectConsensus (v :: rest) = Consensus.perfectNum mn) ∧
       (mx - mn ≠ 0 → mx - mn ≤ 2 → detectConsensus (v :: rest) = Consensus.close (mx - mn)) ∧
       (¬(mx - mn ≤ 2) → mx - mn ≥ 10 →
         detectConsensus (v :: rest) = Consensus.divergent mn mx) ∧
       (¬(mx - mn ≤ 2) → ¬(mx - mn ≥ 10) →
         detectConsensus (v :: rest) = majorityOrNone (v :: rest)))) ∧
    (∀ (v : Card) (rest : List Card), rest.all (· == v) = false →
      ¬(((numericVotes (v :: rest)).length : ℚ) ≥ (((v :: rest).length : ℚ)) * (4/5)) →
      detectConsensus (v :: rest) = majorityOrNone (v :: rest)) ∧
    (∀ (votes : List Card) (mv : Card),
      (jsKeys votes).find? (fun k => votes.count k == jsMaxCount votes) = some mv →
      votes.count mv = jsMaxCount votes ∧
      (((jsMaxCount votes : ℚ) > (votes.length : ℚ) * (3/5)) →
        majorityOrNone votes = Consensus.majority mv (jsMaxCount votes) votes.length) ∧
      (¬((jsMaxCount votes : ℚ) > (votes.length : ℚ) * (3/5)) →
        majorityOrNone votes = Consensus.noConsensus)) ∧
    (∀ (votes : List Card) (c : Card), c ∈ votes → votes.count c ≤ jsMaxCount votes) ∧
    (detectConsensus [Card.c5, Card.c5, Card.c5] = Consensus.perfectCard Card.c5 ∧
     detectConsensus [Card.c3, Card.c5, Card.c3] = Consensus.close 2 ∧
     detectConsensus [Card.c1, Card.c20, Card.c5] = Consensus.divergent 1 20 ∧
     detectConsensus [Card.c5, Card.c5, Card.c5, Card.c8] =
       Consensus.majority Card.c5 3 4 ∧
     detectConsensus [Card.c1, Card.c5, Card.c13, Card.cq] = Consensus.noConsensus ∧
     detectConsensus [] = Consensus.insufficient ∧
     detectConsensus [Card.c5] = Consensus.insufficient) := by
  refine ⟨?_, ?_, ?_, ?_, ?_, count_le_jsMaxCount, ?_, ?_, ?_, ?_, ?_, ?_, ?_⟩
  · intro votes h
    unfold detectConsensus
    rw [if_pos h]
  · intro v rest hne hall
    rw [detectConsensus_cons, if_neg (length_cons_not_lt_two v rest hne), if_pos hall]
  · intro v rest mn mx hall hmn hmx h80
    have hne := rest_ne_nil_of_all_false v rest hall
    have hallf : ¬(rest.all (· == v) = true) := by simp [hall]
    rw [detectConsensus_cons, if_neg (length_cons_not_lt_two v rest hne), if_neg hallf]
    simp only []
    rw [if_pos h80]
    simp only [hmn, hmx]
    refine ⟨?_, ?_, ?_, ?_⟩
    · intro h0
      rw [if_pos h0]
    · intro h0 h2
      rw [if_neg h0, if_pos h2]
    · intro h2 h10
      have h0 : ¬(mx - mn = 0) := fun hh => h2 (by rw [hh]; norm_num)
      rw [if_neg h0, if_neg h2, if_pos h10]
    · intro h2 h10
      have h0 : ¬(mx - mn = 0) := fun hh => h2 (by rw [hh]; norm_num)
      rw [if_neg h0, if_neg h2, if_neg h10]
  · intro v rest hall h80
    have hne := rest_ne_nil_of_all_false v rest hall
    have hallf : ¬(rest.all (· == v) = true) := by simp [hall]
    rw [detectConsensus_cons, if_neg (length_cons_not_lt_two v rest hne), if_neg hallf]
    simp only []
    rw [if_neg h80]
  · intro votes mv hfind
    have hcnt := List.find?_some hfind
    simp only at hcnt
    have hcnt' : votes.count mv = jsMaxCount votes := by simpa using hcnt
    refine ⟨hcnt', ?_, ?_⟩
    · intro hmaj
      unfold majorityOrNone
      rw [hfind]
      simp only [if_pos hmaj]
    · intro hmaj
      unfold majorityOrNone
      rw [hfind]
      simp only [if_neg hmaj]
  all_goals
    simp [detectConsensus, numericVotes, Card.parseNum, listMin, listMax,
      majorityOrNone, jsKeys, jsMaxCount, dedupFirst, numericKeyCards]
    try norm_num

/-- Witness for C2: the theorem's first clause at a singleton vote list. -/
theorem C2_witness : detectConsensus [Card.c8] = Consensus.insufficient :=
  C2_detectConsensus_classification.1 [Card.c8] (by decide)

end PlanningClub
